import Mathlib

/-!
Verification of the indexing pipeline in `src/agents/code-agent.py`.

The repository's single source file defines `index_codebase`, which loads
files with a `DirectoryLoader` (glob `**/*.{ts,js,py,md,txt}`, excludes
`**/node_modules/**`, `**/dist/**`, `**/.git/**`), splits the loaded
documents with a `RecursiveCharacterTextSplitter(chunk_size=1000,
chunk_overlap=100)`, checks `OPENAI_API_KEY`, connects to Chroma and calls
`add_documents` on the resulting chunks.  The `__main__` block reads
`CHROMADB_HOST` / `CHROMADB_PORT` from the environment (defaults
`localhost` / `8000`), converting the port with Python's `int`, and then
calls `index_codebase`.

The splitter and loader are external library objects; where their behaviour
decides a claim it is modelled from the specification's contract (chunker,
configuration validation) or from the documented pathlib-style glob
semantics the loader uses (no brace alternation).  Everything that is in
the source file itself — the order of the stages, the placement of the API
key check, the blind `add_documents` append, the `int()` conversion in
`__main__` — is embedded faithfully, in source order.
-/

namespace CodeAgent

/-- A chunk as in the spec's data model: start and end offsets into the
document plus the chunk text (content modelled as a list of characters). -/
structure Chunk where
  start_offset : Nat
  end_offset : Nat
  text : List Char
deriving DecidableEq, Repr

/-- Modelled from the spec: the chunker's offset schedule (§4.2 hard-cut
contract).  Chunk `i` starts where chunk `i-1` ended minus the overlap
(i.e. starts advance by `step = size - overlap`); a chunk ends at
`start + size` except the final chunk, which ends exactly at `L`.  The
recursion is fuelled; fuel `L` is always sufficient because each step
advances `start` by at least one while `start < L`. -/
def chunkOffsetsAux (size step L : Nat) : Nat → Nat → List (Nat × Nat)
  | 0, start => [(start, L)]
  | fuel + 1, start =>
      if start + size < L then
        (start, start + size) :: chunkOffsetsAux size step L fuel (start + step)
      else
        [(start, L)]

/-- Offset pairs `(start_offset, end_offset)` of the chunks of a document of
length `L`, starting from offset `start`. -/
def chunkOffsets (size step L start : Nat) : List (Nat × Nat) :=
  chunkOffsetsAux size step L L start

/-- Build the chunk with the given offsets over a document. -/
def mkChunk (doc : List Char) (p : Nat × Nat) : Chunk :=
  ⟨p.1, p.2, (doc.drop p.1).take (p.2 - p.1)⟩

/-- Modelled from the spec: the chunker (`RecursiveCharacterTextSplitter` is
an external library; §4.2 calls the hard character cut an acceptable and
testable minimum).  A zero-byte document yields zero chunks (§8); otherwise
the offset schedule is materialised over the document text. -/
def splitIntoChunks (size overlap : Nat) (doc : List Char) : List Chunk :=
  if doc.length = 0 then []
  else (chunkOffsets size (size - overlap) doc.length 0).map (mkChunk doc)

/-- The non-overlapping head of each chunk: the part of a chunk not shared
with its successor (everything before the successor's start); the last
chunk contributes its whole text. -/
def chunkHeads : List Chunk → List (List Char)
  | [] => []
  | [c] => [c.text]
  | c :: c' :: rest =>
      c.text.take (c'.start_offset - c.start_offset) :: chunkHeads (c' :: rest)

/-- A file of the directory tree: path components relative to the root, and
its text content. -/
structure FsFile where
  path : List String
  content : List Char
deriving DecidableEq, Repr

/-- The last path component of a file path, as characters. -/
def basenameChars (p : List String) : List Char :=
  (p.getLast?.getD "").toList

/-- The literal character suffix that the source's glob pattern
`**/*.\x7bts,js,py,md,txt\x7d` requires of a file name: pathlib-style glob
matching (used by the external `DirectoryLoader`) has no brace alternation,
so the braces and commas are matched literally. -/
def globSuffix : List Char :=
  ['.', '\x7b', 't', 's', ',', 'j', 's', ',', 'p', 'y', ',',
   'm', 'd', ',', 't', 'x', 't', '\x7d']

/-- Whether a path matches the source's glob pattern `**/*.\x7bts,js,py,md,txt\x7d`
under pathlib-style matching: the basename must end with the literal
brace-and-comma suffix. -/
def globMatch (p : List String) : Bool :=
  globSuffix.isSuffixOf (basenameChars p)

/-- The exclude patterns of the source: `**/node_modules/**`, `**/dist/**`,
`**/.git/**` — a file is excluded when one of these names occurs as a
proper (non-final) path component. -/
def excludedDirs : List String :=
  ["node_modules", "dist", ".git"]

/-- Whether a path falls under one of the exclude patterns. -/
def isExcluded (p : List String) : Bool :=
  p.dropLast.any (fun c => excludedDirs.contains c)

/-- The Loader (`DirectoryLoader.load`): the files of the tree whose path
matches the glob pattern and is not excluded, in walk order. -/
def loaderSelect (fs : List FsFile) : List FsFile :=
  fs.filter (fun f => globMatch f.path && !isExcluded f.path)

/-- The environment variables the program reads. -/
structure Env where
  openai_api_key : Option String
  chromadb_host : Option String
  chromadb_port : Option String
deriving DecidableEq, Repr

/-- A record held by the Chroma collection: provenance path plus the chunk.
Chroma's `add_documents` is called without explicit ids, so records carry
no stable external key; re-inserting the same content appends a new record. -/
structure Record where
  source : List String
  chunk : Chunk
deriving DecidableEq, Repr

/-- Observable side effects of a run, in order: the loader's filesystem
read, the connection to the Chroma endpoint, the embedding network call and
the upsert network call. -/
inductive Effect where
  | fsRead
  | netConnect
  | netEmbed
  | netUpsert
deriving DecidableEq, Repr

/-- Errors `index_codebase` can raise. -/
inductive PipeError where
  | missingApiKey
  | invalidChunkConfig
deriving DecidableEq, Repr

/-- `index_codebase`, generalised over the two literals of line 17
(`chunk_size=1000`, `chunk_overlap=100`), in source order: the loader runs
first (lines 9–14), then the splitter is constructed and applied
(lines 17–18), then `OPENAI_API_KEY` is checked (lines 21–23; Python's
`if not openai_api_key` also rejects the empty string), then the Chroma
connection and `add_documents` (lines 27–35), which appends every chunk to
the collection.  Splitter construction validating the degenerate
configuration is modelled from the spec (`RecursiveCharacterTextSplitter`
is external): `chunk_overlap ≥ chunk_size`, or either value zero, is
rejected there.  Returns the trace of effects and either an error or the
resulting collection contents. -/
def index_codebase_cfg (size overlap : Nat) (fs : List FsFile) (env : Env)
    (collection : List Record) : List Effect × Except PipeError (List Record) :=
  let docs := loaderSelect fs
  if size ≤ overlap ∨ size = 0 ∨ overlap = 0 then
    ([Effect.fsRead], Except.error PipeError.invalidChunkConfig)
  else
    let texts := docs.flatMap fun d =>
      (splitIntoChunks size overlap d.content).map fun c => Record.mk d.path c
    match env.openai_api_key with
    | none => ([Effect.fsRead], Except.error PipeError.missingApiKey)
    | some k =>
        if k = "" then ([Effect.fsRead], Except.error PipeError.missingApiKey)
        else ([Effect.fsRead, Effect.netConnect, Effect.netEmbed, Effect.netUpsert],
              Except.ok (collection ++ texts))

/-- The source's `index_codebase` with its literal configuration
`chunk_size=1000`, `chunk_overlap=100`. -/
def index_codebase (fs : List FsFile) (env : Env) (collection : List Record) :
    List Effect × Except PipeError (List Record) :=
  index_codebase_cfg 1000 100 fs env collection

/-- Python `str.strip()` on both ends, as performed by `int()`. -/
def pyStrip (cs : List Char) : List Char :=
  ((cs.dropWhile Char.isWhitespace).reverse.dropWhile Char.isWhitespace).reverse

/-- Digit-and-underscore tail of a Python integer literal: after the first
digit, an underscore may appear only between two digits. -/
def pyDigitsAux : List Char → Nat → Option Nat
  | [], acc => some acc
  | '_' :: c :: rest, acc =>
      if c.isDigit then pyDigitsAux rest (acc * 10 + (c.toNat - 48)) else none
  | ['_'], _ => none
  | c :: rest, acc =>
      if c.isDigit then pyDigitsAux rest (acc * 10 + (c.toNat - 48)) else none

/-- Python's `int(string)`: strip whitespace, optional sign, then a
non-empty digit sequence with optional single underscores between digits;
anything else raises `ValueError` (modelled as `none`). -/
def pyInt (s : String) : Option Int :=
  match pyStrip s.toList with
  | '+' :: c :: rest =>
      if c.isDigit then (pyDigitsAux rest (c.toNat - 48)).map Int.ofNat else none
  | '-' :: c :: rest =>
      if c.isDigit then (pyDigitsAux rest (c.toNat - 48)).map (fun n => -(Int.ofNat n)) else none
  | c :: rest =>
      if c.isDigit then (pyDigitsAux rest (c.toNat - 48)).map Int.ofNat else none
  | [] => none

/-- Error of the `__main__` block. -/
inductive MainError where
  | valueError
deriving DecidableEq, Repr

/-- The `__main__` block (lines 37–44): read `CHROMADB_HOST` with default
`localhost`, convert `CHROMADB_PORT` (default `8000`) with `int` — an
invalid literal raises an uncaught `ValueError` — and only then call
`index_codebase`. -/
def mainRun (env : Env) (fs : List FsFile) (collection : List Record) :
    Except MainError (List Effect × Except PipeError (List Record)) :=
  let _host := env.chromadb_host.getD "localhost"
  match pyInt (env.chromadb_port.getD "8000") with
  | none => Except.error MainError.valueError
  | some _ => Except.ok (index_codebase fs env collection)

/-! ### Helper lemmas about the chunker -/

theorem chunkOffsetsAux_head (size step L : Nat) (fuel start : Nat) :
    ∃ e rest, chunkOffsetsAux size step L fuel start = (start, e) :: rest := by
  cases fuel with
  | zero => exact ⟨L, [], rfl⟩
  | succ n =>
      by_cases h : start + size < L
      · exact ⟨start + size, chunkOffsetsAux size step L n (start + step),
          by simp [chunkOffsetsAux, h]⟩
      · exact ⟨L, [], by simp [chunkOffsetsAux, h]⟩

theorem head_div_succ (A step : Nat) (hA : 1 ≤ A) (hstep : 0 < step) :
    (A + step - 1) / step = (A - step + step - 1) / step + 1 := by
  rcases le_or_lt A step with h | h
  · have e1 : A + step - 1 = (A - 1) + step := by omega
    have e2 : A - step + step - 1 = step - 1 := by omega
    rw [e1, Nat.add_div_right _ hstep, e2,
      Nat.div_eq_of_lt (show A - 1 < step by omega),
      Nat.div_eq_of_lt (show step - 1 < step by omega)]
  · have e1 : A + step - 1 = (A - step - 1) + step + step := by omega
    have e2 : A - step + step - 1 = (A - step - 1) + step := by omega
    rw [e1, e2, Nat.add_div_right _ hstep, Nat.add_div_right _ hstep]

theorem chunkOffsetsAux_length (size step : Nat) (hstep : 0 < step) :
    ∀ fuel start L, L ≤ start + fuel →
      (chunkOffsetsAux size step L fuel start).length
        = (L - start - size + step - 1) / step + 1 := by
  intro fuel
  induction fuel with
  | zero =>
      intro start L hL
      have h1 : L - start - size = 0 := by omega
      simp [chunkOffsetsAux, h1, Nat.div_eq_of_lt (show step - 1 < step by omega)]
  | succ n ih =>
      intro start L hL
      by_cases h : start + size < L
      · have hrec := ih (start + step) L (by omega)
        have key := head_div_succ (L - start - size) step (by omega) hstep
        have e : L - (start + step) - size = L - start - size - step := by omega
        rw [e] at hrec
        simp only [chunkOffsetsAux, if_pos h, List.length_cons, hrec]
        omega
      · have h1 : L - start - size = 0 := by omega
        simp [chunkOffsetsAux, h, h1,
          Nat.div_eq_of_lt (show step - 1 < step by omega)]

theorem chunkOffsets_count (size overlap L : Nat) (h1 : overlap < size)
    (h2 : overlap < L) :
    (chunkOffsets size (size - overlap) L 0).length
      = (L - overlap + (size - overlap) - 1) / (size - overlap) := by
  have hstep : 0 < size - overlap := by omega
  have base := chunkOffsetsAux_length size (size - overlap) hstep L 0 L (by omega)
  rw [chunkOffsets, base]
  rcases le_or_lt size L with h | h
  · have e : L - overlap + (size - overlap) - 1
        = (L - 0 - size + (size - overlap) - 1) + (size - overlap) := by omega
    rw [e, Nat.add_div_right _ hstep]
  · have e1 : L - 0 - size + (size - overlap) - 1 = size - overlap - 1 := by omega
    have e2 : L - overlap + (size - overlap) - 1 = (L - overlap - 1) + (size - overlap) := by
      omega
    rw [e1, e2, Nat.add_div_right _ hstep,
      Nat.div_eq_of_lt (show L - overlap - 1 < size - overlap by omega),
      Nat.div_eq_of_lt (show size - overlap - 1 < size - overlap by omega)]

theorem chunkOffsetsAux_last_eq (size step L : Nat) :
    ∀ fuel start,
      ((chunkOffsetsAux size step L fuel start).map Prod.snd).getLast? = some L := by
  intro fuel
  induction fuel with
  | zero => intro start; simp [chunkOffsetsAux]
  | succ n ih =>
      intro start
      by_cases h : start + size < L
      · obtain ⟨e, rest, hr⟩ := chunkOffsetsAux_head size step L n (start + step)
        have hlast := ih (start + step)
        rw [hr] at hlast
        simp only [chunkOffsetsAux, if_pos h, hr, List.map_cons,
          List.getLast?_cons_cons]
        simpa using hlast
      · simp [chunkOffsetsAux, h]

theorem chunkOffsetsAux_heads_flatten (doc : List Char) (size step : Nat)
    (hstep : 0 < step) (hss : step ≤ size) :
    ∀ fuel start, doc.length ≤ start + fuel → start < doc.length →
      (chunkHeads ((chunkOffsetsAux size step doc.length fuel start).map
        (mkChunk doc))).flatten = doc.drop start := by
  intro fuel
  induction fuel with
  | zero => intro start hL hs; omega
  | succ n ih =>
      intro start hL hs
      by_cases h : start + size < doc.length
      · obtain ⟨e, rest, hr⟩ := chunkOffsetsAux_head size step doc.length n (start + step)
        have ihs := ih (start + step) (by omega) (by omega)
        rw [hr] at ihs
        simp only [chunkOffsetsAux, if_pos h, hr, List.map_cons] at ihs ⊢
        rw [chunkHeads, List.flatten_cons, ihs]
        simp only [mkChunk]
        have e1 : start + step - start = step := by omega
        have e2 : start + size - start = size := by omega
        rw [e1, e2, List.take_take, Nat.min_eq_left hss,
          show doc.drop (start + step) = (doc.drop start).drop step by
            rw [List.drop_drop],
          List.take_append_drop]
      · simp only [chunkOffsetsAux, if_neg h, List.map_cons, List.map_nil]
        rw [chunkHeads]
        simp only [mkChunk, List.flatten_cons, List.flatten_nil, List.append_nil]
        exact List.take_of_length_le (by simp)

theorem chunkOffsetsAux_chain (doc : List Char) (size overlap : Nat)
    (h1 : overlap < size) :
    ∀ fuel start,
      List.Chain' (fun c c' => c.start_offset ≤ c'.start_offset ∧
          c'.start_offset + overlap = c.end_offset)
        ((chunkOffsetsAux size (size - overlap) doc.length fuel start).map
          (mkChunk doc)) := by
  intro fuel
  induction fuel with
  | zero => intro start; simp [chunkOffsetsAux]
  | succ n ih =>
      intro start
      by_cases h : start + size < doc.length
      · obtain ⟨e, rest, hr⟩ :=
          chunkOffsetsAux_head size (size - overlap) doc.length n (start + (size - overlap))
        have ihs := ih (start + (size - overlap))
        rw [hr] at ihs
        simp only [chunkOffsetsAux, if_pos h, hr, List.map_cons] at ihs ⊢
        rw [List.chain'_cons]
        refine ⟨⟨?_, ?_⟩, ihs⟩
        · simp [mkChunk]
        · simp only [mkChunk]
          omega
      · simp [chunkOffsetsAux, h]

/-! ### Claims about the chunker -/

/-- C2 counterexample: the claimed chunk count `ceil((L-o)/(s-o))` fails for
a nonempty document no longer than the overlap.  With `size = 2`,
`overlap = 1` and the one-character document `a` (`L = 1`), the chunker
yields one chunk but the formula yields `ceil(0/1) = 0`. -/
theorem C2_counterexample :
    ¬ ((splitIntoChunks 2 1 ['a']).length
        = ((['a'] : List Char).length - 1 + (2 - 1) - 1) / (2 - 1)) := by
  decide

/-- C2 (amended): for every document of length `L > o` and configuration
`o < s`, the chunker produces exactly `ceil((L-o)/(s-o))` chunks (written
with ceiling division on naturals), the last chunk's `end_offset` is `L`,
and concatenating each chunk's non-overlapping head reconstructs the
document exactly. -/
theorem C2_chunk_count_coverage (size overlap : Nat) (doc : List Char)
    (hov : overlap < size) (hlen : overlap < doc.length) :
    (splitIntoChunks size overlap doc).length
        = (doc.length - overlap + (size - overlap) - 1) / (size - overlap)
      ∧ ((splitIntoChunks size overlap doc).map Chunk.end_offset).getLast?
          = some doc.length
      ∧ (chunkHeads (splitIntoChunks size overlap doc)).flatten = doc := by
  have hpos : ¬ doc.length = 0 := by omega
  have hstep : 0 < size - overlap := by omega
  unfold splitIntoChunks
  rw [if_neg hpos]
  refine ⟨?_, ?_, ?_⟩
  · rw [List.length_map]
    exact chunkOffsets_count size overlap doc.length hov hlen
  · rw [List.map_map]
    have hc : (Chunk.end_offset ∘ mkChunk doc) = Prod.snd := rfl
    rw [hc]
    exact chunkOffsetsAux_last_eq size (size - overlap) doc.length doc.length 0
  · have hf := chunkOffsetsAux_heads_flatten doc size (size - overlap) hstep
      (by omega) doc.length 0 (by omega) (by omega)
    simpa [chunkOffsets] using hf

theorem C2_witness :
    (1 < 3 ∧ 1 < (['a', 'b', 'c', 'd', 'e'] : List Char).length)
      ∧ ((splitIntoChunks 3 1 ['a', 'b', 'c', 'd', 'e']).length
            = ((['a', 'b', 'c', 'd', 'e'] : List Char).length - 1 + (3 - 1) - 1) / (3 - 1)
          ∧ ((splitIntoChunks 3 1 ['a', 'b', 'c', 'd', 'e']).map Chunk.end_offset).getLast?
              = some (['a', 'b', 'c', 'd', 'e'] : List Char).length
          ∧ (chunkHeads (splitIntoChunks 3 1 ['a', 'b', 'c', 'd', 'e'])).flatten
              = ['a', 'b', 'c', 'd', 'e']) :=
  ⟨by decide, C2_chunk_count_coverage 3 1 ['a', 'b', 'c', 'd', 'e'] (by decide) (by decide)⟩

/-- C6 counterexample: the empty document is shorter than the chunk size,
yet the chunker produces zero chunks rather than the claimed single chunk. -/
theorem C6_counterexample :
    ¬ ((splitIntoChunks 1000 100 ([] : List Char)).length = 1) := by
  decide

/-- C6 (amended): every nonempty document shorter than `chunk_size` yields
exactly one chunk whose text is the whole document text (the empty document
yields zero chunks). -/
theorem C6_single_chunk (size overlap : Nat) (doc : List Char)
    (_hov : overlap < size) (hpos : 0 < doc.length) (hlt : doc.length < size) :
    splitIntoChunks size overlap doc = [⟨0, doc.length, doc⟩] := by
  unfold splitIntoChunks
  rw [if_neg (by omega)]
  obtain ⟨n, hn⟩ : ∃ n, doc.length = n + 1 := ⟨doc.length - 1, by omega⟩
  rw [chunkOffsets, hn]
  simp only [chunkOffsetsAux, if_neg (show ¬ (0 + size < n + 1) by omega),
    List.map_cons, List.map_nil, mkChunk]
  simp [List.take_of_length_le (show doc.length ≤ n + 1 - 0 by omega), ← hn]

theorem C6_witness :
    (100 < 1000 ∧ 0 < (['h', 'i'] : List Char).length
        ∧ (['h', 'i'] : List Char).length < 1000)
      ∧ splitIntoChunks 1000 100 ['h', 'i'] = [⟨0, 2, ['h', 'i']⟩] :=
  ⟨by decide, C6_single_chunk 1000 100 ['h', 'i'] (by decide) (by decide) (by decide)⟩

/-- C7: a zero-byte document yields zero chunks, never an empty chunk. -/
theorem C7_empty_document (size overlap : Nat) :
    splitIntoChunks size overlap [] = [] := by
  simp [splitIntoChunks]

/-- C8: chunks of a document appear in non-decreasing `start_offset` order
and every pair of consecutive chunks overlaps by exactly `chunk_overlap`
characters (the successor's start plus the overlap equals the predecessor's
end); only the final chunk may fall short of the nominal size. -/
theorem C8_chunk_sequence_invariant (size overlap : Nat) (doc : List Char)
    (hov : overlap < size) :
    List.Chain' (fun c c' => c.start_offset ≤ c'.start_offset ∧
        c'.start_offset + overlap = c.end_offset)
      (splitIntoChunks size overlap doc) := by
  unfold splitIntoChunks
  by_cases h : doc.length = 0
  · simp [h]
  · rw [if_neg h]
    exact chunkOffsetsAux_chain doc size overlap hov doc.length 0

theorem C8_witness :
    1 < 3 ∧ List.Chain' (fun c c' => c.start_offset ≤ c'.start_offset ∧
        c'.start_offset + 1 = c.end_offset)
      (splitIntoChunks 3 1 ['a', 'b', 'c', 'd', 'e']) :=
  ⟨by decide, C8_chunk_sequence_invariant 3 1 ['a', 'b', 'c', 'd', 'e'] (by decide)⟩

/-! ### Claims about the loader -/

/-- C9: the glob pattern is matched literally (pathlib-style matching has no
brace alternation), so on any tree whose file names contain no literal
brace the Loader selects zero files and the pipeline gets zero documents. -/
theorem C9_literal_glob_selects_nothing (fs : List FsFile)
    (hb : ∀ f ∈ fs, '\x7b' ∉ basenameChars f.path) :
    loaderSelect fs = [] := by
  unfold loaderSelect
  rw [List.filter_eq_nil_iff]
  intro f hf hmatch
  rw [Bool.and_eq_true] at hmatch
  have hsuf : globSuffix <:+ basenameChars f.path := by
    simpa [globMatch, List.isSuffixOf_iff_suffix] using hmatch.1
  exact hb f hf (hsuf.subset (by decide))

theorem C9_witness :
    (∀ f ∈ [FsFile.mk ["a.py"] ['p']], '\x7b' ∉ basenameChars f.path)
      ∧ loaderSelect [FsFile.mk ["a.py"] ['p']] = [] :=
  ⟨by decide, C9_literal_glob_selects_nothing [FsFile.mk ["a.py"] ['p']] (by decide)⟩

/-- C5: evaluation of the code at the failing input.  A directory with one
regular file `a.py` — which matches the intended extension allow-list and no
exclude pattern, so the claim demands exactly one document — yields zero
documents from the Loader and an empty insertion from the whole pipeline,
because the brace glob is matched literally. -/
theorem C5_code_behavior :
    loaderSelect [FsFile.mk ["a.py"] "print".toList] = []
      ∧ (index_codebase [FsFile.mk ["a.py"] "print".toList]
            (Env.mk (some "k") none none) []).2 = Except.ok [] :=
  ⟨rfl, rfl⟩

/-! ### Claims about the pipeline driver -/

/-- C1: evaluation of the code at the failing input.  For a directory whose
single file is actually selected by the literal glob (name ending in the
literal brace suffix), running `index_codebase` twice against the same
collection appends the same chunk record twice: the resulting collection
holds duplicate records for identical source content, so the pipeline is
not idempotent. -/
theorem C1_code_behavior :
    (index_codebase [FsFile.mk ["x.\x7bts,js,py,md,txt\x7d"] ['h', 'i']]
          (Env.mk (some "k") none none) []).2
        = Except.ok [Record.mk ["x.\x7bts,js,py,md,txt\x7d"] ⟨0, 2, ['h', 'i']⟩]
      ∧ (index_codebase [FsFile.mk ["x.\x7bts,js,py,md,txt\x7d"] ['h', 'i']]
            (Env.mk (some "k") none none)
            [Record.mk ["x.\x7bts,js,py,md,txt\x7d"] ⟨0, 2, ['h', 'i']⟩]).2
        = Except.ok [Record.mk ["x.\x7bts,js,py,md,txt\x7d"] ⟨0, 2, ['h', 'i']⟩,
            Record.mk ["x.\x7bts,js,py,md,txt\x7d"] ⟨0, 2, ['h', 'i']⟩]
      ∧ ¬ ([Record.mk ["x.\x7bts,js,py,md,txt\x7d"] ⟨0, 2, ['h', 'i']⟩,
            Record.mk ["x.\x7bts,js,py,md,txt\x7d"] ⟨0, 2, ['h', 'i']⟩] : List Record).Nodup :=
  ⟨rfl, rfl, by decide⟩

/-- C3 counterexample: with `OPENAI_API_KEY` absent the run does abort with
the configuration error, but only after the Loader has executed — the effect
trace of the aborted run contains the filesystem read, contradicting the
claim that the abort happens before the Loader executes and before any
filesystem read. -/
theorem C3_counterexample :
    Effect.fsRead ∈ (index_codebase [FsFile.mk ["a.py"] ['p']]
        (Env.mk none none none) []).1
      ∧ (index_codebase [FsFile.mk ["a.py"] ['p']] (Env.mk none none none) []).2
          = Except.error PipeError.missingApiKey :=
  ⟨by decide, rfl⟩

/-- C3 (amended): when `OPENAI_API_KEY` is absent every run aborts with the
configuration error before any network call — the trace holds exactly the
loader's filesystem read and no connect, embed or upsert effect — but after
the Loader has executed. -/
theorem C3_abort_before_network (fs : List FsFile) (collection : List Record)
    (env : Env) (hkey : env.openai_api_key = none) :
    index_codebase fs env collection
      = ([Effect.fsRead], Except.error PipeError.missingApiKey) := by
  obtain ⟨key, host, port⟩ := env
  cases hkey
  rfl

theorem C3_witness :
    (Env.mk none none none).openai_api_key = none
      ∧ index_codebase [] (Env.mk none none none) []
          = ([Effect.fsRead], Except.error PipeError.missingApiKey) :=
  ⟨rfl, C3_abort_before_network [] [] (Env.mk none none none) rfl⟩

/-- C4 counterexample: a degenerate configuration (`chunk_overlap` equal to
`chunk_size`) is rejected, but only after the loader's file I/O: the trace
of the rejected run contains the filesystem read, contradicting the claim
that the rejection happens before any file I/O. -/
theorem C4_counterexample :
    Effect.fsRead ∈ (index_codebase_cfg 100 100 [FsFile.mk ["a.py"] ['p']]
        (Env.mk (some "k") none none) []).1
      ∧ (index_codebase_cfg 100 100 [FsFile.mk ["a.py"] ['p']]
            (Env.mk (some "k") none none) []).2
          = Except.error PipeError.invalidChunkConfig :=
  ⟨by decide, rfl⟩

/-- C4 (amended): every degenerate chunk configuration (`chunk_overlap ≥
chunk_size`, or either value zero) is rejected when the splitter is
constructed — after the Loader's file I/O, before any network call — rather
than at pipeline start. -/
theorem C4_reject_at_splitter_construction (size overlap : Nat)
    (fs : List FsFile) (env : Env) (collection : List Record)
    (hdeg : size ≤ overlap ∨ size = 0 ∨ overlap = 0) :
    index_codebase_cfg size overlap fs env collection
      = ([Effect.fsRead], Except.error PipeError.invalidChunkConfig) := by
  simp only [index_codebase_cfg]
  rw [if_pos hdeg]

theorem C4_witness :
    ((100 : Nat) ≤ 100 ∨ (100 : Nat) = 0 ∨ (100 : Nat) = 0)
      ∧ index_codebase_cfg 100 100 [] (Env.mk (some "k") none none) []
          = ([Effect.fsRead], Except.error PipeError.invalidChunkConfig) :=
  ⟨Or.inl (by decide),
    C4_reject_at_splitter_construction 100 100 [] (Env.mk (some "k") none none) []
      (Or.inl (by decide))⟩

/-! ### Claims about the entry point -/

/-- C10: if `CHROMADB_PORT` is set to a string that Python's `int` rejects,
the entry point fails with the uncaught `ValueError` before
`index_codebase` is called, so no load, embed or upsert work happens. -/
theorem C10_invalid_port_aborts (s : String) (key host : Option String)
    (fs : List FsFile) (collection : List Record) (hs : pyInt s = none) :
    mainRun (Env.mk key host (some s)) fs collection
      = Except.error MainError.valueError := by
  simp [mainRun, hs]

theorem C10_witness :
    pyInt "abc" = none
      ∧ mainRun (Env.mk (some "k") none (some "abc")) [] []
          = Except.error MainError.valueError :=
  ⟨by decide, C10_invalid_port_aborts "abc" (some "k") none [] [] (by decide)⟩

end CodeAgent
